import Mathlib

/-!
Verification of the command-dispatch core of `server-base`: a shallow
embedding of `src/rpc/JsonRpcServer.ts` (JSON-RPC adapter), the TCP CLI
adapter, and `CommandHandler.ts` (registry and parameter parser library),
together with theorems settling the specification claims.

Modelling conventions:
* JSON values are the inductive `JsonValue`; JS numbers are exact rationals
  (floating-point rounding and the `Infinity` literal are outside the model).
* JS `undefined` (an absent value) is `Option.none`; the JSON literal
  `null` is `JsonValue.null`.  The repository's parsers observe them only
  through loose equality `data == null`, which identifies the two.
* Thrown JS `Error`s are `Except.error` carrying the message string;
  promises are collapsed to their resolution value (no real concurrency is
  modelled).
* JS objects are insertion-ordered association lists with unique keys
  (duplicate keys cannot arise in a JS object, and `JSON.parse` collapses
  duplicate keys); property access is `List.lookup`.
-/

namespace ServerBase

/-- A JSON value as delivered by `JSON.parse` / built by the adapters.
Numbers are modelled as exact rationals. -/
inductive JsonValue where
  | null
  | bool (b : Bool)
  | num (q : ℚ)
  | str (s : String)
  | arr (items : List JsonValue)
  | obj (fields : List (String × JsonValue))

/-- JS truthiness of a value (`if (x)`): `null`, `false`, `0` and `""` are
falsy; arrays and objects are always truthy. -/
def jsTruthy : JsonValue → Bool
  | .null => false
  | .bool b => b
  | .num q => !(q == 0)
  | .str s => !(s == "")
  | .arr _ => true
  | .obj _ => true

/-- JS truthiness of a possibly absent value: `undefined` is falsy. -/
def jsTruthyOpt : Option JsonValue → Bool
  | none => false
  | some v => jsTruthy v

/-- JS property access `v[key]` for the keys used by the server: on an
object it is association-list lookup, on any other value it yields
`undefined` (call sites guard the `null`/`undefined` receivers that would
throw). -/
def jsGetField (v : JsonValue) (key : String) : Option JsonValue :=
  match v with
  | .obj fields => fields.lookup key
  | _ => none

/-- JS loose test `x == null`, true exactly for `null` and `undefined`. -/
def jsIsNullish : Option JsonValue → Bool
  | none => true
  | some .null => true
  | some _ => false

/-- Substring helper: `listStartsWith pat l` holds when `pat` is an initial
segment of `l`. -/
def listStartsWith : List Char → List Char → Bool
  | [], _ => true
  | _ :: _, [] => false
  | c :: cs, d :: ds => c == d && listStartsWith cs ds

/-- Substring helper: `listHasSub pat l` holds when `pat` occurs
contiguously inside `l`. -/
def listHasSub (pat : List Char) : List Char → Bool
  | [] => pat.isEmpty
  | c :: rest => listStartsWith pat (c :: rest) || listHasSub pat rest

/-- JS `s.includes(pat)`. -/
def strIncludes (s pat : String) : Bool :=
  listHasSub pat.toList s.toList

/-- One declared parameter of a command (`ArgsTemplate` entry in
`CommandHandler.ts`): the positional flag `base`, a description, and the
parser from a raw (possibly absent) value to a typed value or a thrown
message. -/
structure ArgSpec where
  base : Bool
  description : String
  parser : Option JsonValue → Except String JsonValue

/-- The runtime of a command: the declared parameters in declaration order
and the execution function (`runtime.parser` in the source), modelled on
its resolution value; the streaming `sendLine` callback is I/O and is not
part of the dispatch decisions verified here. -/
structure CommandRuntime where
  args : List (String × ArgSpec)
  parser : List (String × JsonValue) → Except String JsonValue

/-- A command descriptor (`Command` in `CommandHandler.ts`). -/
structure Command where
  cmd : String
  description : String
  runtime : CommandRuntime

/-- The message of the error thrown when a parameter parser fails:
`"Parsing parameter '<key>': <message>"` (from `JsonRpcServer.parseCommandParams`). -/
def paramErrMsg (key msg : String) : String :=
  "Parsing parameter '" ++ key ++ "': " ++ msg

/-- The `!params` branch of `parseCommandParams`: every declared parameter
is parsed with the absent value, in declaration order, throwing at the
first failure. -/
def parseAllAbsent : List (String × ArgSpec) → Except String (List (String × JsonValue))
  | [] => .ok []
  | (key, spec) :: rest =>
    match spec.parser none with
    | .error msg => .error (paramErrMsg key msg)
    | .ok v =>
      match parseAllAbsent rest with
      | .error e => .error e
      | .ok tail => .ok ((key, v) :: tail)

/-- First loop of the array branch of `parseCommandParams`: the filtered
base (positional) parameters are zipped with the supplied values, one value
per slot, stopping when either list runs out.  JS object keys are unique,
so `command.runtime.args[key]` recovers exactly the filtered entry, which
is carried alongside its key here. -/
def parseBaseLoop : List (String × ArgSpec) → List JsonValue → Except String (List (String × JsonValue))
  | [], _ => .ok []
  | _ :: _, [] => .ok []
  | (key, spec) :: rest, v :: vs =>
    match spec.parser (some v) with
    | .error msg => .error (paramErrMsg key msg)
    | .ok tv =>
      match parseBaseLoop rest vs with
      | .error e => .error e
      | .ok tail => .ok ((key, tv) :: tail)

/-- Second loop of the array branch of `parseCommandParams`: every
parameter that is not positional and was not assigned by the first loop is
parsed with the absent value.  `assigned` is the key set built by the first
loop (the only keys in `paramsObj` when the loop runs; keys of a JS object
are unique, so entries added by this loop itself can never collide). -/
def parseRemainingLoop (assigned : List String) : List (String × ArgSpec) → Except String (List (String × JsonValue))
  | [] => .ok []
  | (key, spec) :: rest =>
    if !spec.base && !(assigned.contains key) then
      match spec.parser none with
      | .error msg => .error (paramErrMsg key msg)
      | .ok v =>
        match parseRemainingLoop assigned rest with
        | .error e => .error e
        | .ok tail => .ok ((key, v) :: tail)
    else parseRemainingLoop assigned rest

/-- Array branch of `parseCommandParams`. -/
def parseArray (args : List (String × ArgSpec)) (ps : List JsonValue) : Except String (List (String × JsonValue)) :=
  match parseBaseLoop (args.filter (fun a => a.2.base)) ps with
  | .error e => .error e
  | .ok assigned =>
    match parseRemainingLoop (assigned.map (fun a => a.1)) args with
    | .error e => .error e
    | .ok rest => .ok (assigned ++ rest)

/-- Named (object) branch of `parseCommandParams`: every declared parameter
is parsed from the value found under its own name (absent keys give the
absent value); keys of `fields` not naming a declared parameter are never
consulted. -/
def parseNamed (fields : List (String × JsonValue)) : List (String × ArgSpec) → Except String (List (String × JsonValue))
  | [] => .ok []
  | (key, spec) :: rest =>
    match spec.parser (fields.lookup key) with
    | .error msg => .error (paramErrMsg key msg)
    | .ok v =>
      match parseNamed fields rest with
      | .error e => .error e
      | .ok tail => .ok ((key, v) :: tail)

/-- `JsonRpcServer.parseCommandParams`: materializes the raw JSON-RPC
`params` value into the typed argument object, or throws. -/
def parseCommandParams (command : Command) (params : Option JsonValue) : Except String (List (String × JsonValue)) :=
  if !(jsTruthyOpt params) then parseAllAbsent command.runtime.args
  else
    match params with
    | some (.arr ps) => parseArray command.runtime.args ps
    | some (.obj fields) => parseNamed fields command.runtime.args
    | _ => .error "Parameters must be an array or object"

/-- A JSON-RPC error object (`code`, `message`, optional `data`). -/
structure JsonRpcErrorObj where
  code : Int
  message : String
  data : Option JsonValue

/-- A JSON-RPC response as produced by `handleJsonRpcRequest`; the `id`
field is `none` when the handler propagates an absent request id (which
express then omits from the serialized JSON). -/
inductive JsonRpcResponse where
  | success (result : JsonValue) (id : Option JsonValue)
  | error (e : JsonRpcErrorObj) (id : Option JsonValue)

/-- `JsonRpcServer.isValidJsonRpcRequest`: envelope validation. -/
def isValidJsonRpcRequest (body : JsonValue) : Bool :=
  jsTruthy body &&
  (match body with
   | .null => true
   | .arr _ => true
   | .obj _ => true
   | _ => false) &&
  (match jsGetField body "jsonrpc" with
   | some (.str s) => s == "2.0"
   | _ => false) &&
  (match jsGetField body "method" with
   | some (.str _) => true
   | _ => false) &&
  (match jsGetField body "params" with
   | none => true
   | some (.arr _) => true
   | some (.obj _) => true
   | some _ => false) &&
  (match jsGetField body "id" with
   | none => true
   | some .null => true
   | some (.str _) => true
   | some (.num _) => true
   | some _ => false)

/-- The id placed on an invalid-request response:
`(body && body.id !== undefined) ? body.id : null`. -/
def invalidEchoId (body : JsonValue) : JsonValue :=
  if jsTruthy body then
    match jsGetField body "id" with
    | some v => v
    | none => .null
  else .null

/-- The method string destructured from a validated request body. -/
def rpcMethod (body : JsonValue) : String :=
  match jsGetField body "method" with
  | some (.str s) => s
  | _ => ""

/-- The catch block of `handleJsonRpcRequest`: failures whose message
contains `'Parsing parameter'` become `INVALID_PARAMS` (−32602), all others
`SERVER_ERROR` (−32000), with the message carried in `data`. -/
def classifyRpcFailure (e : String) (id : Option JsonValue) : JsonRpcResponse :=
  if strIncludes e "Parsing parameter" then
    .error ⟨-32602, "Invalid params", some (.str e)⟩ id
  else
    .error ⟨-32000, "Server error", some (.str e)⟩ id

/-- `JsonRpcServer.handleJsonRpcRequest` over the parsed request body. -/
def handleJsonRpcRequest (commands : List (String × Command)) (body : JsonValue) : JsonRpcResponse :=
  match body with
  | .arr _ => .error ⟨-32600, "Batch requests not supported", none⟩ (some .null)
  | _ =>
    if !(isValidJsonRpcRequest body) then
      .error ⟨-32600, "Invalid Request", none⟩ (some (invalidEchoId body))
    else
      let params := jsGetField body "params"
      let id := jsGetField body "id"
      match commands.lookup (rpcMethod body) with
      | none => .error ⟨-32601, "Method not found", none⟩ id
      | some command =>
        match parseCommandParams command params with
        | .error e => classifyRpcFailure e id
        | .ok parsedArgs =>
          match command.runtime.parser parsedArgs with
          | .error e => classifyRpcFailure e id
          | .ok result => .success result id

/-- `CommandHandler.registerCommand`: reject (without mutation) when the
name is taken, else insert.  Assignment to an absent key of a JS object
appends in insertion order. -/
def registerCommand (commands : List (String × Command)) (cmd : Command) : List (String × Command) × Bool :=
  if (commands.lookup cmd.cmd).isSome then (commands, false)
  else (commands ++ [(cmd.cmd, cmd)], true)

/-- A decimal digit. -/
def isDigitChar (c : Char) : Bool :=
  '0' ≤ c && c ≤ '9'

/-- A hexadecimal digit. -/
def isHexDigitChar (c : Char) : Bool :=
  isDigitChar c || ('a' ≤ c && c ≤ 'f') || ('A' ≤ c && c ≤ 'F')

/-- Value of one hexadecimal digit. -/
def hexDigitVal (c : Char) : Nat :=
  if isDigitChar c then c.toNat - '0'.toNat
  else if 'a' ≤ c && c ≤ 'f' then c.toNat - 'a'.toNat + 10
  else c.toNat - 'A'.toNat + 10

/-- Numeric value of a decimal digit string. -/
def digitsToNat (ds : List Char) : Nat :=
  ds.foldl (fun acc c => acc * 10 + (c.toNat - '0'.toNat)) 0

/-- Numeric value of a hexadecimal digit string. -/
def hexDigitsToNat (ds : List Char) : Nat :=
  ds.foldl (fun acc c => acc * 16 + hexDigitVal c) 0

/-- A JS whitespace character (the characters relevant to the inputs
modelled here: space, tab and line terminators). -/
def isJsSpace (c : Char) : Bool :=
  c == ' ' || c == '\t' || c == '\n' || c == '\r' || c == '\x0b' || c == '\x0c'

/-- A leading `-` sign. -/
def isNegSign : List Char → Bool
  | '-' :: _ => true
  | _ => false

/-- Strip one leading `+`/`-`. -/
def stripSign : List Char → List Char
  | '-' :: rest => rest
  | '+' :: rest => rest
  | cs => cs

/-- The signed rational value of a digit-string magnitude. -/
def signedNatQ (neg : Bool) (n : Nat) : ℚ :=
  if neg then -(n : ℚ) else (n : ℚ)

/-- JS `parseInt(s)` (default radix): skip whitespace, optional sign,
optional `0x`/`0X` hex prefix, then the longest digit prefix; `NaN`
(modelled as `none`) when no digit is found. -/
def jsParseInt (s : String) : Option ℚ :=
  let cs0 := s.toList.dropWhile isJsSpace
  let neg := isNegSign cs0
  let cs := stripSign cs0
  match cs with
  | '0' :: x :: rest =>
    if x == 'x' || x == 'X' then
      let ds := rest.takeWhile isHexDigitChar
      if ds.isEmpty then none else some (signedNatQ neg (hexDigitsToNat ds))
    else
      some (signedNatQ neg (digitsToNat (('0' :: x :: rest).takeWhile isDigitChar)))
  | _ =>
    let ds := cs.takeWhile isDigitChar
    if ds.isEmpty then none else some (signedNatQ neg (digitsToNat ds))

/-- JS `parseFloat(s)`: skip whitespace, optional sign, then the longest
prefix of the form `digits [. digits] [e|E [sign] digits]` (at least one
digit before or after the point), as an exact rational.  The `Infinity`
literal, which has no rational value, is outside the model. -/
def jsParseFloat (s : String) : Option ℚ :=
  let cs0 := s.toList.dropWhile isJsSpace
  let neg := isNegSign cs0
  let cs := stripSign cs0
  let intDigits := cs.takeWhile isDigitChar
  let rest1 := cs.dropWhile isDigitChar
  let (fracDigits, rest2) :=
    match rest1 with
    | '.' :: r => (r.takeWhile isDigitChar, r.dropWhile isDigitChar)
    | _ => ([], rest1)
  if intDigits.isEmpty && fracDigits.isEmpty then none
  else
    let mantissa : ℚ := (digitsToNat intDigits : ℚ) + (digitsToNat fracDigits : ℚ) / ((10 : ℚ) ^ fracDigits.length)
    let signedMantissa := if neg then -mantissa else mantissa
    let expPart : Int :=
      match rest2 with
      | e :: r =>
        if e == 'e' || e == 'E' then
          let eds := (stripSign r).takeWhile isDigitChar
          if eds.isEmpty then 0
          else if isNegSign r then -(digitsToNat eds : Int) else (digitsToNat eds : Int)
        else 0
      | [] => 0
    some (signedMantissa * (10 : ℚ) ^ expPart)

/-- The numeric conversion selected by `cmdNumberParser`'s `decimal` flag:
`parseFloat` or `parseInt`.  `none` stands for `NaN`. -/
def jsParseNumber (decimal : Bool) (s : String) : Option ℚ :=
  if decimal then jsParseFloat s else jsParseInt s

/-- Rendering of a JS number into an error message (`"..." + min`);
modelled exactly for integral values, which is what the bound arguments of
the repository's parsers are. -/
def jsNumToString (q : ℚ) : String :=
  if q.den == 1 then
    (if q.num < 0 then "-" ++ natToStr q.num.natAbs else natToStr q.num.natAbs)
  else natToStr q.num.natAbs ++ "/" ++ natToStr q.den
where
  natToStrAux : Nat → Nat → List Char
    | 0, _ => []
    | fuel + 1, n => if n == 0 then [] else natToStrAux fuel (n / 10) ++ [Char.ofNat ('0'.toNat + n % 10)]
  natToStr (n : Nat) : String :=
    if n == 0 then "0" else ⟨natToStrAux (n + 1) n⟩

/-- Below-minimum test `min != null && num < min`. -/
def belowMin (min? : Option ℚ) (num : ℚ) : Bool :=
  match min? with
  | some mn => decide (num < mn)
  | none => false

/-- Above-maximum test `max != null && num > max`. -/
def aboveMax (max? : Option ℚ) (num : ℚ) : Bool :=
  match max? with
  | some mx => decide (mx < num)
  | none => false

/-- `cmdNumberParser` from `CommandHandler.ts`: parses a textual value as a
number (`parseFloat` when `decimal`, else `parseInt`), then checks the
optional inclusive bounds.  The result `Except.ok none` is the JS `null`
returned on an absent value by an optional parser. -/
def cmdNumberParser (decimal : Bool) (min? max? : Option ℚ) (optional : Bool) : Option String → Except String (Option ℚ)
  | none => if optional then .ok none else .error "Data is null"
  | some data =>
    match jsParseNumber decimal data with
    | none => .error "Number is NaN or null"
    | some num =>
      if belowMin min? num then .error ("Number must be greater than " ++ jsNumToString ((min?).getD 0))
      else if aboveMax max? num then .error ("Number must be less than " ++ jsNumToString ((max?).getD 0))
      else .ok (some num)

/-- JS `Array.prototype.join`. -/
def jsJoin (sep : String) : List String → String
  | [] => ""
  | x :: xs => xs.foldl (fun acc y => acc ++ sep ++ y) x

/-- `cmdEnumParser` from `CommandHandler.ts`. -/
def cmdEnumParser (possibleValues : List String) (optional : Bool) : Option String → Except String (Option String)
  | none => if optional then .ok none else .error "Data is null"
  | some data =>
    if possibleValues.contains data then .ok (some data)
    else .error ("Invalid enum value, possible values: " ++ jsJoin ", " possibleValues)

/-- `cmdStringParser` from `CommandHandler.ts`. -/
def cmdStringParser (minLength? maxLength? : Option Nat) (optional : Bool) : Option String → Except String (Option String)
  | none => if optional then .ok none else .error "Data is null"
  | some data =>
    match minLength? with
    | some mn =>
      if data.length < mn then .error ("Invalid string length, min length: " ++ jsNumToString mn)
      else checkMax data
    | none => checkMax data
where
  checkMax (data : String) : Except String (Option String) :=
    match maxLength? with
    | some mx =>
      if mx < data.length then .error ("Invalid string length, max length: " ++ jsNumToString mx)
      else .ok (some data)
    | none => .ok (some data)

/-- Parse a sequence of (key, spec, raw value) triples in order, throwing
the attributed message at the first parser failure.  Each branch of
`parseCommandParams` is equal to `seqParse` of a suitable sequence; the
sequence makes the parse order of the branch explicit. -/
def seqParse : List (String × ArgSpec × Option JsonValue) → Except String (List (String × JsonValue))
  | [] => .ok []
  | (key, spec, raw) :: rest =>
    match spec.parser raw with
    | .error msg => .error (paramErrMsg key msg)
    | .ok v =>
      match seqParse rest with
      | .error e => .error e
      | .ok tail => .ok ((key, v) :: tail)

/-- The first parser failure in a parse sequence, as the attributed error
message it would surface as. -/
def firstFailMsg : List (String × ArgSpec × Option JsonValue) → Option String
  | [] => none
  | (key, spec, raw) :: rest =>
    match spec.parser raw with
    | .error msg => some (paramErrMsg key msg)
    | .ok _ => firstFailMsg rest

/-- The parse sequence of the `Empty` source: every parameter with the
absent value, in declaration order. -/
def emptySeq (args : List (String × ArgSpec)) : List (String × ArgSpec × Option JsonValue) :=
  args.map (fun a => (a.1, a.2, none))

/-- The parse sequence of a named (object) source: every parameter with
the value found under its own name, in declaration order. -/
def namedSeq (args : List (String × ArgSpec)) (fields : List (String × JsonValue)) : List (String × ArgSpec × Option JsonValue) :=
  args.map (fun a => (a.1, a.2, fields.lookup a.1))

/-- The parse sequence of a positional (array) source: the positional
parameters paired with the supplied values (stopping at the shorter list)
first, then every non-positional parameter with the absent value.
Positional parameters beyond the supplied values appear nowhere. -/
def arraySeq (args : List (String × ArgSpec)) (ps : List JsonValue) : List (String × ArgSpec × Option JsonValue) :=
  ((args.filter (fun a => a.2.base)).zip ps).map (fun x => (x.1.1, x.1.2, some x.2))
    ++ (args.filter (fun a => !a.2.base)).map (fun a => (a.1, a.2, none))

/-- Characters of the input before its first `"` (reversed accumulator
style) together with the characters after that quote, when one exists. -/
def splitAtQuote (acc : List Char) : List Char → Option (List Char × List Char)
  | [] => none
  | c :: cs => if c == '"' then some (acc.reverse, cs) else splitAtQuote (c :: acc) cs

/-- Raw token matches of the tokenizing regex `"[^"]+"|[\S]+` applied
globally: at each non-whitespace position a quoted span with a nonempty
body is preferred, else the longest run of non-whitespace characters.
Each step consumes at least one character (see `dropWhile_cons_length_lt`
and `tokenize_after_length_lt`), so running it with fuel `cs.length + 1`
(as `tokenizeCore` does) never exhausts the fuel; the fuel only makes the
recursion structural. -/
def tokenizeCoreFuel : Nat → List Char → List (List Char)
  | 0, _ => []
  | fuel + 1, cs =>
    match cs.dropWhile isJsSpace with
    | [] => []
    | c :: rest =>
      if c == '"' then
        match splitAtQuote [] rest with
        | some (inner, after) =>
          if inner.isEmpty then
            (c :: rest).takeWhile (fun d => !isJsSpace d)
              :: tokenizeCoreFuel fuel ((c :: rest).dropWhile (fun d => !isJsSpace d))
          else ('"' :: (inner ++ ['"'])) :: tokenizeCoreFuel fuel after
        | none =>
          (c :: rest).takeWhile (fun d => !isJsSpace d)
            :: tokenizeCoreFuel fuel ((c :: rest).dropWhile (fun d => !isJsSpace d))
      else
        (c :: rest).takeWhile (fun d => !isJsSpace d)
          :: tokenizeCoreFuel fuel ((c :: rest).dropWhile (fun d => !isJsSpace d))

/-- The token matches of one line. -/
def tokenizeCore (cs : List Char) : List (List Char) :=
  tokenizeCoreFuel (cs.length + 1) cs

/-- `TcpCliServer.parseLine`'s tokenization: the regex matches with every
`"` stripped (`element.replace(/"/g, '')`); both regex alternatives match
at least one character, so every match is pushed. -/
def tokenizeLine (line : String) : List String :=
  (tokenizeCore line.toList).map (fun t => String.mk (t.filter (fun ch => !(ch == '"'))))

/-- Result of the `minimist` call in `TcpCliServer.parseLine`:
`result._` (kept as strings, `"_"` being listed in `opts.string`) and the
named flag values. -/
structure MinimistResult where
  underscore : List String
  named : List (String × JsonValue)

/-- The numeric-string test minimist applies before auto-converting an
undeclared flag value: an optional sign, digits with an optional fraction
(or a bare fraction), and an optional exponent, spanning the whole token. -/
def isNumberToken (s : String) : Bool :=
  let cs := stripSign s.toList
  let intDigits := cs.takeWhile isDigitChar
  let rest1 := cs.dropWhile isDigitChar
  let (fracDigits, rest2) :=
    match rest1 with
    | '.' :: r => (r.takeWhile isDigitChar, r.dropWhile isDigitChar)
    | _ => ([], rest1)
  if intDigits.isEmpty && fracDigits.isEmpty then false
  else
    match rest2 with
    | [] => true
    | e :: r =>
      if e == 'e' || e == 'E' then
        let r1 := stripSign r
        !(r1.takeWhile isDigitChar).isEmpty && (r1.dropWhile isDigitChar).isEmpty
      else false

/-- Minimist's conversion of a flag value for a key not declared as a
string: numeric-looking tokens become numbers, everything else stays a
string. -/
def jsAutoConvert (s : String) : JsonValue :=
  if isNumberToken s then .num ((jsParseFloat s).getD 0) else .str s

/-- The stored value of `--key=v` / `--key v`: string-declared keys keep
the raw string, others are auto-converted. -/
def minimistSetVal (stringKeys : List String) (k v : String) : JsonValue :=
  if stringKeys.contains k then .str v else jsAutoConvert v

/-- The value of a bare flag with no consumable successor: `""` for a
string-declared key, else `true`. -/
def flagDefault (stringKeys : List String) (k : String) : JsonValue :=
  if stringKeys.contains k then .str "" else .bool true

/-- Split `body` at its first `=` into a nonempty key and the value. -/
def splitOnEqAux (acc : List Char) : List Char → Option (String × String)
  | [] => none
  | c :: cs =>
    if c == '=' then
      if acc.isEmpty then none else some (⟨acc.reverse⟩, ⟨cs⟩)
    else splitOnEqAux (c :: acc) cs

/-- Split a flag body `k=v` at the first `=`, if any. -/
def splitOnEq (body : String) : Option (String × String) :=
  splitOnEqAux [] body.toList

/-- JS `s.startsWith(pat)`. -/
def strStartsWith (s pat : String) : Bool :=
  listStartsWith pat.toList s.toList

/-- Model of the `minimist` dependency (an npm package, not repository
code) restricted to the token shapes the CLI contract uses: positional
tokens, `--key=value`, `--key value`, bare `--key`, the `--` terminator,
and simple single-dash forms.  Repeated flags (which minimist collects
into arrays) are outside the model; no claim repeats a flag. -/
def minimistLoop (stringKeys : List String) : List String → MinimistResult
  | [] => ⟨[], []⟩
  | t :: rest =>
    if t == "--" then ⟨rest, []⟩
    else if strStartsWith t "--" then
      let body := t.drop 2
      match splitOnEq body with
      | some (k, v) =>
        let r := minimistLoop stringKeys rest
        ⟨r.underscore, (k, minimistSetVal stringKeys k v) :: r.named⟩
      | none =>
        match rest with
        | [] => ⟨[], [(body, flagDefault stringKeys body)]⟩
        | next :: rest2 =>
          if !(strStartsWith next "-") then
            let r := minimistLoop stringKeys rest2
            ⟨r.underscore, (body, minimistSetVal stringKeys body next) :: r.named⟩
          else
            let r := minimistLoop stringKeys (next :: rest2)
            ⟨r.underscore, (body, flagDefault stringKeys body) :: r.named⟩
    else if strStartsWith t "-" && !(t == "-") then
      let body := t.drop 1
      match splitOnEq body with
      | some (k, v) =>
        let r := minimistLoop stringKeys rest
        ⟨r.underscore, (k, minimistSetVal stringKeys k v) :: r.named⟩
      | none =>
        let letters := body.toList
        let initFlags := letters.dropLast.map
          (fun ch => (String.mk [ch], flagDefault stringKeys (String.mk [ch])))
        match letters.getLast? with
        | none =>
          let r := minimistLoop stringKeys rest
          ⟨r.underscore, r.named⟩
        | some lastC =>
          let lastKey := String.mk [lastC]
          match rest with
          | [] => ⟨[], initFlags ++ [(lastKey, flagDefault stringKeys lastKey)]⟩
          | next :: rest2 =>
            if !(strStartsWith next "-") then
              let r := minimistLoop stringKeys rest2
              ⟨r.underscore, initFlags ++ (lastKey, minimistSetVal stringKeys lastKey next) :: r.named⟩
            else
              let r := minimistLoop stringKeys (next :: rest2)
              ⟨r.underscore, initFlags ++ (lastKey, flagDefault stringKeys lastKey) :: r.named⟩
    else
      let r := minimistLoop stringKeys rest
      ⟨t :: r.underscore, r.named⟩

/-- The `minimist(args, {string: ["_"].concat(Object.keys(cmd.runtime.args))})`
call of `TcpCliServer.parseLine`. -/
def jsMinimist (tokens : List String) (stringKeys : List String) : MinimistResult :=
  minimistLoop stringKeys tokens

/-- The raw value the loop of `TcpCliServer.parseLine` hands to `key`'s
parser when its positional cursor stands at `slot`: the flag value when it
is not nullish, else — for a positional parameter — the unflagged token
`result._[slot]` when that token exists
(`if(result[key]==null && result._[index]!=null) result[key] = result._[index]`). -/
def cliEffectiveRaw (r : MinimistResult) (slot : Nat) (key : String) (spec : ArgSpec) : Option JsonValue :=
  let named := r.named.lookup key
  if spec.base then
    if jsIsNullish named && (r.underscore.get? slot).isSome
    then (r.underscore.get? slot).map JsonValue.str
    else named
  else named

/-- The parameter loop of `TcpCliServer.parseLine`: walks the declared
parameters in declaration order while keeping the positional cursor
`index` (starting at 1; `result._[0]` is the command name); the cursor
advances for every positional parameter whether or not a flag bound it.
The first parser failure aborts with that parameter's key and message. -/
def parseLineLoop (r : MinimistResult) : List (String × ArgSpec) → Nat → Except (String × String) (List (String × JsonValue))
  | [], _ => .ok []
  | (key, spec) :: rest, index =>
    match spec.parser (cliEffectiveRaw r index key spec) with
    | .error msg => .error (key, msg)
    | .ok v =>
      match parseLineLoop r rest (if spec.base then index + 1 else index) with
      | .error e => .error e
      | .ok tail => .ok ((key, v) :: tail)

/-- `TcpCliServer.getUsageString`. -/
def getUsageString (cmd : Command) : String :=
  cmd.cmd ++ " " ++ jsJoin " " ((cmd.runtime.args.filter (fun a => a.2.base)).map (fun a => "<" ++ a.1 ++ ">"))

/-- `TcpCliServer.getParamsDescription`. -/
def getParamsDescription (cmd : Command) : List String :=
  cmd.runtime.args.map (fun a => "--" ++ a.1 ++ " : " ++ a.2.description)

/-- `TcpCliServer.getCommandHelp`. -/
def getCommandHelp (cmd : Command) : String :=
  let lines := ["Command: " ++ cmd.cmd, "Description: " ++ cmd.description, "Usage: " ++ getUsageString cmd]
  let paramLines := getParamsDescription cmd
  let lines := if paramLines.length == 0 then lines else lines ++ ["Params:"]
  jsJoin "\n" (lines ++ paramLines.map (fun p => "    " ++ p))

/-- `TcpCliServer.getHelp`. -/
def getHelp (commands : List (String × Command)) : String :=
  jsJoin "\n" (("Available commands:" :: commands.map (fun kc => "    " ++ kc.1 ++ " : " ++ kc.2.description))
    ++ ["Use 'help <command name>' for usage examples, description & help around a specific command!"])

/-- The dispatch decision of `TcpCliServer.parseLine` on one input line:
either a directly resolved response string, or the invocation of a
resolved command with its materialized argument object (execution and its
CLI rendering are asynchronous I/O beyond the dispatch decision). -/
inductive CliResult where
  | direct (s : String)
  | exec (cmdName : String) (paramsObj : List (String × JsonValue))

/-- `TcpCliServer.parseLine`.  The result is `none` exactly on a nonempty
line with no token: there `line.match(regex)` returns JS `null` and the
`forEach` call throws a `TypeError` before any dispatch decision. -/
def parseLine (commands : List (String × Command)) (line : String) : Option CliResult :=
  if line == "" then some (.direct "") else
  match tokenizeLine line with
  | [] => none
  | a0 :: restTokens =>
    if a0 == "help" then
      match restTokens.head? with
      | some a1 =>
        match commands.lookup a1 with
        | some c => some (.direct (getCommandHelp c))
        | none => some (.direct (getHelp commands))
      | none => some (.direct (getHelp commands))
    else
      match commands.lookup a0 with
      | none => some (.direct "Error: Unknown command, please type 'help' to get a list of all commands!")
      | some cmd =>
        let r := jsMinimist (a0 :: restTokens) ("_" :: cmd.runtime.args.map Prod.fst)
        match parseLineLoop r cmd.runtime.args 1 with
        | .error (key, msg) =>
          some (.direct ("Error: Parsing parameter '" ++ key ++ "': " ++ msg ++ "\n\n" ++ getCommandHelp cmd))
        | .ok paramsObj => some (.exec a0 paramsObj)

/-!
Test fixtures: concrete commands as a user of the library would supply
them, used by the witnesses and counterexamples below.
-/

/-- A required parser: fails on a nullish raw value (as the repository's
non-optional parsers do), otherwise returns the raw value unchanged. -/
def reqParser : Option JsonValue → Except String JsonValue
  | none => .error "Data is null"
  | some .null => .error "Data is null"
  | some v => .ok v

/-- A parser that never fails: a nullish raw value becomes `null`. -/
def laxParser : Option JsonValue → Except String JsonValue
  | none => .ok .null
  | some .null => .ok .null
  | some v => .ok v

/-- Two positional parameters whose parsers never fail. -/
def c1Cmd : Command :=
  ⟨"pair", "test", ⟨[("a", ⟨true, "first", laxParser⟩), ("b", ⟨true, "second", laxParser⟩)], fun _ => .ok .null⟩⟩

/-- Two required positional parameters `a`, `b`. -/
def c2Cmd : Command :=
  ⟨"cmd", "test", ⟨[("a", ⟨true, "first", reqParser⟩), ("b", ⟨true, "second", reqParser⟩)], fun _ => .ok .null⟩⟩

/-- Positional parameter `a` and named (non-positional) parameter `b`,
both required. -/
def addCmd : Command :=
  ⟨"add", "test", ⟨[("a", ⟨true, "first", reqParser⟩), ("b", ⟨false, "second", reqParser⟩)], fun _ => .ok .null⟩⟩

/-- A command with no parameters whose execution fails with a message that
merely contains the classifier's substring. -/
def spoofCmd : Command :=
  ⟨"boom", "test", ⟨[], fun _ => .error "Parsing parameter spoof"⟩⟩

/-- A command with no parameters whose execution fails with an ordinary
message. -/
def failCmd : Command :=
  ⟨"f", "test", ⟨[], fun _ => .error "boom"⟩⟩

/-- A required non-positional parameter `x` declared before a positional
parameter `y` whose parser rejects every value. -/
def c5Cmd : Command :=
  ⟨"c5", "test", ⟨[("x", ⟨false, "x", reqParser⟩), ("y", ⟨true, "y", fun _ => .error "bad value"⟩)], fun _ => .ok .null⟩⟩

/-- A single never-failing named parameter `a`. -/
def c10Cmd : Command :=
  ⟨"c10", "test", ⟨[("a", ⟨false, "a", laxParser⟩)], fun _ => .ok .null⟩⟩

/-- The number of positional slots declared strictly before `key`. -/
def countBaseBefore : List (String × ArgSpec) → String → Nat
  | [], _ => 0
  | (k, s) :: rest, key =>
    if k == key then 0 else (if s.base then 1 else 0) + countBaseBefore rest key

theorem seqParse_append (s1 s2 : List (String × ArgSpec × Option JsonValue)) :
    seqParse (s1 ++ s2) =
      match seqParse s1 with
      | .error e => .error e
      | .ok t1 =>
        match seqParse s2 with
        | .error e => .error e
        | .ok t2 => .ok (t1 ++ t2) := by
  induction s1 with
  | nil => cases h : seqParse s2 <;> simp [seqParse, h]
  | cons hd tl ih =>
    obtain ⟨key, spec, raw⟩ := hd
    simp only [List.cons_append, seqParse]
    cases hp : spec.parser raw with
    | error msg => rfl
    | ok v =>
      rw [show tl.append s2 = tl ++ s2 from rfl, ih]
      cases h1 : seqParse tl <;> cases h2 : seqParse s2 <;> rfl

theorem seqParse_error_iff (seq : List (String × ArgSpec × Option JsonValue)) (e : String) :
    seqParse seq = .error e ↔ firstFailMsg seq = some e := by
  induction seq with
  | nil => simp [seqParse, firstFailMsg]
  | cons hd tl ih =>
    obtain ⟨key, spec, raw⟩ := hd
    simp only [seqParse, firstFailMsg]
    cases hp : spec.parser raw with
    | error msg => simp
    | ok v =>
      cases h1 : seqParse tl with
      | error e1 => simpa [h1] using ih
      | ok t1 => simp [← ih, h1]

theorem seqParse_ok_keys (seq : List (String × ArgSpec × Option JsonValue))
    (m : List (String × JsonValue)) (h : seqParse seq = .ok m) :
    m.map Prod.fst = seq.map (fun x => x.1) := by
  induction seq generalizing m with
  | nil => simp [seqParse] at h; simp [← h]
  | cons hd tl ih =>
    obtain ⟨key, spec, raw⟩ := hd
    simp only [seqParse] at h
    cases hp : spec.parser raw with
    | error msg => rw [hp] at h; exact absurd h (by simp)
    | ok v =>
      rw [hp] at h
      cases h1 : seqParse tl with
      | error e1 => rw [h1] at h; exact absurd h (by simp)
      | ok t1 =>
        rw [h1] at h
        obtain rfl : (key, v) :: t1 = m := by simpa using h
        simpa using ih t1 h1

theorem seqParse_ok_lookup (seq : List (String × ArgSpec × Option JsonValue))
    (m : List (String × JsonValue)) (hnd : (seq.map (fun x => x.1)).Nodup)
    (h : seqParse seq = .ok m) :
    ∀ key spec raw, (key, spec, raw) ∈ seq →
      m.lookup key = (spec.parser raw).toOption := by
  induction seq generalizing m with
  | nil => intro key spec raw hmem; simp at hmem
  | cons hd tl ih =>
    obtain ⟨k0, s0, r0⟩ := hd
    simp only [seqParse] at h
    cases hp : s0.parser r0 with
    | error msg => rw [hp] at h; exact absurd h (by simp)
    | ok v =>
      rw [hp] at h
      cases h1 : seqParse tl with
      | error e1 => rw [h1] at h; exact absurd h (by simp)
      | ok t1 =>
        rw [h1] at h
        obtain rfl : (k0, v) :: t1 = m := by simpa using h
        intro key spec raw hmem
        rcases List.mem_cons.mp hmem with heq | htl
        · obtain ⟨rfl, rfl, rfl⟩ : k0 = key ∧ s0 = spec ∧ r0 = raw := by
            simpa [Prod.ext_iff] using heq.symm
          simp [List.lookup, hp, Except.toOption]
        · have hne : key ≠ k0 := by
            rintro rfl
            simp only [List.map_cons, List.nodup_cons] at hnd
            exact hnd.1 (by simpa using List.mem_map_of_mem (fun x => x.1) htl)
          have ht : t1.lookup key = (spec.parser raw).toOption := by
            refine ih t1 ?_ h1 key spec raw htl
            simp only [List.map_cons, List.nodup_cons] at hnd
            exact hnd.2
          have hbeq : (key == k0) = false := beq_eq_false_iff_ne.mpr hne
          simpa [List.lookup, hbeq] using ht

theorem parseAllAbsent_eq_seqParse (args : List (String × ArgSpec)) :
    parseAllAbsent args = seqParse (emptySeq args) := by
  induction args with
  | nil => rfl
  | cons hd tl ih =>
    obtain ⟨key, spec⟩ := hd
    simp only [parseAllAbsent, emptySeq, List.map_cons, seqParse]
    rw [show (emptySeq tl) = tl.map (fun a => (a.1, a.2, (none : Option JsonValue))) from rfl] at ih
    rw [← ih]

theorem parseNamed_eq_seqParse (fields : List (String × JsonValue)) (args : List (String × ArgSpec)) :
    parseNamed fields args = seqParse (namedSeq args fields) := by
  induction args with
  | nil => rfl
  | cons hd tl ih =>
    obtain ⟨key, spec⟩ := hd
    simp only [parseNamed, namedSeq, List.map_cons, seqParse]
    rw [show (namedSeq tl fields) = tl.map (fun a => (a.1, a.2, fields.lookup a.1)) from rfl] at ih
    rw [← ih]

theorem parseBaseLoop_eq_seqParse (bs : List (String × ArgSpec)) (ps : List JsonValue) :
    parseBaseLoop bs ps = seqParse ((bs.zip ps).map (fun x => (x.1.1, x.1.2, some x.2))) := by
  induction bs generalizing ps with
  | nil => rfl
  | cons hd tl ih =>
    obtain ⟨key, spec⟩ := hd
    cases ps with
    | nil => rfl
    | cons v vs =>
      simp only [parseBaseLoop]
      rw [show (((key, spec) :: tl).zip (v :: vs)) = ((key, spec), v) :: tl.zip vs from rfl]
      simp only [List.map_cons, seqParse]
      rw [← ih vs]

theorem parseRemainingLoop_eq_seqParse (assigned : List String) (args : List (String × ArgSpec))
    (h : ∀ key spec, (key, spec) ∈ args → spec.base = false → assigned.contains key = false) :
    parseRemainingLoop assigned args
      = seqParse ((args.filter (fun a => !a.2.base)).map (fun a => (a.1, a.2, none))) := by
  induction args with
  | nil => rfl
  | cons hd tl ih =>
    obtain ⟨key, spec⟩ := hd
    have ihtl := ih (fun k s hm hb => h k s (List.mem_cons_of_mem _ hm) hb)
    cases hb : spec.base with
    | true =>
      simp only [parseRemainingLoop, hb]
      simpa [List.filter_cons, hb] using ihtl
    | false =>
      have hc : assigned.contains key = false := h key spec (List.mem_cons_self _ _) hb
      simp only [parseRemainingLoop, hb, hc, Bool.not_false, Bool.not_true, Bool.and_self]
      simp only [List.filter_cons, hb, Bool.not_false, if_true, List.map_cons, seqParse]
      rw [← ihtl]

/-- With unique declared keys (always true of a JS object), a key declared
non-positional never occurs among the positional keys. -/
theorem not_mem_base_keys (args : List (String × ArgSpec))
    (hnd : (args.map Prod.fst).Nodup) (key : String) (spec : ArgSpec)
    (hmem : (key, spec) ∈ args) (hb : spec.base = false) :
    key ∉ (args.filter (fun a => a.2.base)).map Prod.fst := by
  induction args with
  | nil => simp at hmem
  | cons hd tl ih =>
    simp only [List.map_cons, List.nodup_cons] at hnd
    rcases List.mem_cons.mp hmem with heq | htl
    · subst heq
      intro hcontra
      simp only [List.filter_cons, hb] at hcontra
      have : key ∈ tl.map Prod.fst := by
        rcases List.mem_map.mp hcontra with ⟨b, hbmem, hfst⟩
        exact hfst ▸ List.mem_map_of_mem _ (List.mem_of_mem_filter hbmem)
      exact hnd.1 this
    · intro hcontra
      simp only [List.filter_cons] at hcontra
      by_cases hhb : hd.2.base
      · rw [if_pos (by simpa using hhb)] at hcontra
        simp only [List.map_cons] at hcontra
        rcases List.mem_cons.mp hcontra with hkey | hrest
        · refine hnd.1 ?_
          rw [← hkey]
          exact List.mem_map_of_mem Prod.fst htl
        · exact ih hnd.2 htl hrest
      · rw [if_neg (by simpa using hhb)] at hcontra
        exact ih hnd.2 htl hcontra

theorem parseArray_eq_seqParse (args : List (String × ArgSpec)) (ps : List JsonValue)
    (hnd : (args.map Prod.fst).Nodup) :
    parseArray args ps = seqParse (arraySeq args ps) := by
  unfold parseArray arraySeq
  rw [seqParse_append]
  rw [← parseBaseLoop_eq_seqParse]
  cases hb : parseBaseLoop (args.filter (fun a => a.2.base)) ps with
  | error e => rfl
  | ok assigned =>
    have hkeys : assigned.map Prod.fst
        = ((args.filter (fun a => a.2.base)).zip ps).map (fun x => x.1.1) := by
      have := seqParse_ok_keys _ assigned
        (by rw [← parseBaseLoop_eq_seqParse]; exact hb)
      simpa [List.map_map, Function.comp] using this
    have hrem : parseRemainingLoop (assigned.map (fun a => a.1)) args
        = seqParse ((args.filter (fun a => !a.2.base)).map (fun a => (a.1, a.2, none))) := by
      apply parseRemainingLoop_eq_seqParse
      intro key spec hmem hbase
      have hnotbase := not_mem_base_keys args hnd key spec hmem hbase
      have hnotmem : key ∉ assigned.map (fun a : String × JsonValue => a.1) := by
        rw [show (fun a : String × JsonValue => a.1) = Prod.fst from rfl, hkeys]
        intro hcontra
        rcases List.mem_map.mp hcontra with ⟨x, hx, hfst⟩
        have hx1 : x.1 ∈ args.filter (fun a => a.2.base) := (List.of_mem_zip hx).1
        exact hnotbase (hfst ▸ List.mem_map_of_mem Prod.fst hx1)
      simpa using hnotmem
    show (match parseRemainingLoop (assigned.map (fun a => a.1)) args with
          | Except.error e => Except.error e
          | Except.ok rest => Except.ok (assigned ++ rest))
        = match seqParse ((args.filter (fun a => !a.2.base)).map (fun a => (a.1, a.2, none))) with
          | Except.error e => Except.error e
          | Except.ok t2 => Except.ok (assigned ++ t2)
    rw [hrem]

theorem parseCommandParams_none (c : Command) :
    parseCommandParams c none = parseAllAbsent c.runtime.args := rfl

theorem parseCommandParams_arr (c : Command) (ps : List JsonValue) :
    parseCommandParams c (some (.arr ps)) = parseArray c.runtime.args ps := rfl

theorem parseCommandParams_obj (c : Command) (fields : List (String × JsonValue)) :
    parseCommandParams c (some (.obj fields)) = parseNamed fields c.runtime.args := rfl

theorem firstFailMsg_shape (seq : List (String × ArgSpec × Option JsonValue)) (e : String)
    (h : firstFailMsg seq = some e) : ∃ k m, e = paramErrMsg k m := by
  induction seq with
  | nil => simp [firstFailMsg] at h
  | cons hd tl ih =>
    obtain ⟨key, spec, raw⟩ := hd
    simp only [firstFailMsg] at h
    cases hp : spec.parser raw with
    | error msg =>
      rw [hp] at h
      exact ⟨key, msg, by simpa using h.symm⟩
    | ok v => rw [hp] at h; exact ih h

theorem listStartsWith_self_append (l rest : List Char) :
    listStartsWith l (l ++ rest) = true := by
  induction l with
  | nil => rfl
  | cons c cs ih => simpa [listStartsWith] using ih

theorem listHasSub_of_startsWith (pat l : List Char) (h : listStartsWith pat l = true) :
    listHasSub pat l = true := by
  cases l with
  | nil =>
    cases pat with
    | nil => rfl
    | cons c cs => simp [listStartsWith] at h
  | cons c rest => simp [listHasSub, h]

/-- Every message thrown by a parameter parser failure contains the
substring the JSON-RPC catch block classifies on. -/
theorem strIncludes_paramErrMsg (key msg : String) :
    strIncludes (paramErrMsg key msg) "Parsing parameter" = true := by
  have hsplit : paramErrMsg key msg = "Parsing parameter" ++ (" '" ++ key ++ "': " ++ msg) := by
    simp only [paramErrMsg, ← String.append_assoc]
    congr 1
  rw [strIncludes, hsplit]
  have hdata : ("Parsing parameter" ++ (" '" ++ key ++ "': " ++ msg)).toList
      = "Parsing parameter".toList ++ (" '" ++ key ++ "': " ++ msg).toList := by
    simp [String.toList, String.data_append]
  rw [hdata]
  exact listHasSub_of_startsWith _ _ (listStartsWith_self_append _ _)

/-- Every error of the Empty branch is a parameter error message. -/
theorem parseAllAbsent_error_shape (args : List (String × ArgSpec)) (e : String)
    (h : parseAllAbsent args = .error e) : ∃ k m, e = paramErrMsg k m := by
  rw [parseAllAbsent_eq_seqParse, seqParse_error_iff] at h
  exact firstFailMsg_shape _ _ h

/-- Every error of the named branch is a parameter error message. -/
theorem parseNamed_error_shape (fields : List (String × JsonValue)) (args : List (String × ArgSpec)) (e : String)
    (h : parseNamed fields args = .error e) : ∃ k m, e = paramErrMsg k m := by
  rw [parseNamed_eq_seqParse, seqParse_error_iff] at h
  exact firstFailMsg_shape _ _ h

theorem parseBaseLoop_error_shape (bs : List (String × ArgSpec)) (ps : List JsonValue) (e : String)
    (h : parseBaseLoop bs ps = .error e) : ∃ k m, e = paramErrMsg k m := by
  rw [parseBaseLoop_eq_seqParse, seqParse_error_iff] at h
  exact firstFailMsg_shape _ _ h

theorem parseRemainingLoop_error_shape (assigned : List String) (args : List (String × ArgSpec)) (e : String)
    (h : parseRemainingLoop assigned args = .error e) : ∃ k m, e = paramErrMsg k m := by
  induction args with
  | nil => simp [parseRemainingLoop] at h
  | cons hd tl ih =>
    obtain ⟨key, spec⟩ := hd
    simp only [parseRemainingLoop] at h
    by_cases hcond : (!spec.base && !(assigned.contains key)) = true
    · rw [if_pos hcond] at h
      cases hp : spec.parser none with
      | error msg => rw [hp] at h; exact ⟨key, msg, by simpa using h.symm⟩
      | ok v =>
        rw [hp] at h
        cases h1 : parseRemainingLoop assigned tl with
        | error e1 =>
          rw [h1] at h
          obtain rfl : e1 = e := by simpa using h
          exact ih h1
        | ok t1 => rw [h1] at h; exact absurd h (by simp)
    · rw [if_neg hcond] at h
      exact ih h

/-- Every error of the array branch is a parameter error message. -/
theorem parseArray_error_shape (args : List (String × ArgSpec)) (ps : List JsonValue) (e : String)
    (h : parseArray args ps = .error e) : ∃ k m, e = paramErrMsg k m := by
  unfold parseArray at h
  cases hb : parseBaseLoop (args.filter (fun a => a.2.base)) ps with
  | error e1 =>
    rw [hb] at h
    obtain rfl : e1 = e := by simpa using h
    exact parseBaseLoop_error_shape _ _ _ hb
  | ok assigned =>
    rw [hb] at h
    dsimp only at h
    cases h1 : parseRemainingLoop (assigned.map (fun a => a.1)) args with
    | error e1 =>
      rw [h1] at h
      obtain rfl : e1 = e := by simpa using h
      exact parseRemainingLoop_error_shape _ _ _ h1
    | ok t1 => rw [h1] at h; exact absurd h (by simp)

/-- Under a validated envelope (`params` absent, array or object), every
failure of the Argument Materializer carries a `Parsing parameter` message. -/
theorem parseCommandParams_error_shape (c : Command) (params : Option JsonValue) (e : String)
    (hvalid : params = none ∨ (∃ ps, params = some (.arr ps)) ∨ (∃ fs, params = some (.obj fs)))
    (h : parseCommandParams c params = .error e) : ∃ k m, e = paramErrMsg k m := by
  rcases hvalid with rfl | ⟨ps, rfl⟩ | ⟨fs, rfl⟩
  · exact parseAllAbsent_error_shape _ _ (by rw [← parseCommandParams_none c]; exact h)
  · exact parseArray_error_shape _ _ _ (by rw [← parseCommandParams_arr c]; exact h)
  · exact parseNamed_error_shape _ _ _ (by rw [← parseCommandParams_obj c]; exact h)

theorem splitAtQuote_length (acc cs inner after : List Char)
    (h : splitAtQuote acc cs = some (inner, after)) : after.length < cs.length := by
  induction cs generalizing acc with
  | nil => simp [splitAtQuote] at h
  | cons c cs ih =>
    simp only [splitAtQuote] at h
    by_cases hc : (c == '"') = true
    · rw [if_pos hc] at h
      obtain ⟨-, rfl⟩ : acc.reverse = inner ∧ cs = after := by simpa using h
      simp
    · rw [if_neg hc] at h
      exact Nat.lt_trans (ih _ h) (by simp)

theorem dropWhile_head_not {α : Type} (p : α → Bool) (l : List α) (c : α) (rest : List α)
    (h : l.dropWhile p = c :: rest) : p c = false := by
  induction l with
  | nil => simp [List.dropWhile] at h
  | cons a l ih =>
    simp only [List.dropWhile] at h
    by_cases ha : p a = true
    · rw [ha] at h; exact ih h
    · rw [Bool.not_eq_true] at ha
      rw [ha] at h
      obtain ⟨rfl, -⟩ : a = c ∧ l = rest := by simpa using h
      exact ha

theorem dropWhile_cons_length_lt (cs : List Char) (c : Char) (rest : List Char)
    (h : cs.dropWhile isJsSpace = c :: rest) :
    ((c :: rest).dropWhile (fun d => !isJsSpace d)).length < cs.length := by
  have hc : isJsSpace c = false := dropWhile_head_not _ _ _ _ h
  have hdrop : (c :: rest).dropWhile (fun d => !isJsSpace d) = rest.dropWhile (fun d => !isJsSpace d) := by
    rw [List.dropWhile_cons, if_pos (by simp [hc])]
  have h1 : (rest.dropWhile (fun d => !isJsSpace d)).length ≤ rest.length :=
    (List.dropWhile_sublist _).length_le
  have h2 : rest.length + 1 ≤ cs.length := by
    have hsub : (cs.dropWhile isJsSpace).length ≤ cs.length := (List.dropWhile_sublist _).length_le
    rw [h] at hsub
    simpa using hsub
  rw [hdrop]
  omega

theorem tokenize_after_length_lt (cs : List Char) (c : Char) (rest inner after : List Char)
    (h : cs.dropWhile isJsSpace = c :: rest) (h2 : splitAtQuote [] rest = some (inner, after)) :
    after.length < cs.length := by
  have ha : after.length < rest.length := splitAtQuote_length _ _ _ _ h2
  have hsub : (cs.dropWhile isJsSpace).length ≤ cs.length := (List.dropWhile_sublist _).length_le
  rw [h] at hsub
  simp only [List.length_cons] at hsub
  omega

/-- The fuel of `tokenizeCoreFuel` is irrelevant as long as it exceeds the
input length: the recursion consumes at least one character per step. -/
theorem tokenizeCoreFuel_sufficient (fuel : Nat) :
    ∀ (fuel' : Nat) (cs : List Char), cs.length < fuel → cs.length < fuel' →
      tokenizeCoreFuel fuel cs = tokenizeCoreFuel fuel' cs := by
  induction fuel with
  | zero => intro fuel' cs h _; omega
  | succ fuel ih =>
    intro fuel' cs h h'
    cases fuel' with
    | zero => omega
    | succ fuel' =>
      simp only [tokenizeCoreFuel]
      cases hdw : cs.dropWhile isJsSpace with
      | nil => rfl
      | cons c rest =>
        dsimp only
        have hdrop := dropWhile_cons_length_lt cs c rest hdw
        by_cases hc : (c == '"') = true
        · rw [if_pos hc, if_pos hc]
          cases hsq : splitAtQuote [] rest with
          | some p =>
            obtain ⟨inner, after⟩ := p
            dsimp only
            have hafter := tokenize_after_length_lt cs c rest inner after hdw hsq
            by_cases hie : inner.isEmpty = true
            · rw [if_pos hie, if_pos hie, ih fuel' _ (by omega) (by omega)]
            · rw [if_neg hie, if_neg hie, ih fuel' after (by omega) (by omega)]
          | none =>
            dsimp only
            rw [ih fuel' _ (by omega) (by omega)]
        · rw [if_neg hc, if_neg hc, ih fuel' _ (by omega) (by omega)]

theorem lookup_eq_none_of_not_mem {β : Type} (l : List (String × β)) (k : String)
    (h : k ∉ l.map Prod.fst) : l.lookup k = none := by
  induction l with
  | nil => rfl
  | cons hd tl ih =>
    simp only [List.map_cons, List.mem_cons, not_or] at h
    have hbeq : (k == hd.1) = false := beq_eq_false_iff_ne.mpr h.1
    obtain ⟨k0, v0⟩ := hd
    simpa [List.lookup, hbeq] using ih h.2

theorem zip_map_fst_take {β : Type} (l : List (String × ArgSpec)) (ps : List β) :
    (l.zip ps).map (fun x => x.1.1) = (l.map Prod.fst).take ps.length := by
  induction l generalizing ps with
  | nil => simp
  | cons hd tl ih =>
    cases ps with
    | nil => simp
    | cons p pt =>
      rw [show ((hd :: tl).zip (p :: pt)) = (hd, p) :: tl.zip pt from rfl]
      simpa using ih pt

theorem parseNamed_congr (f1 f2 : List (String × JsonValue)) (args : List (String × ArgSpec))
    (h : ∀ a ∈ args, f1.lookup a.1 = f2.lookup a.1) :
    parseNamed f1 args = parseNamed f2 args := by
  induction args with
  | nil => rfl
  | cons hd tl ih =>
    obtain ⟨key, spec⟩ := hd
    have hh := h (key, spec) (List.mem_cons_self _ _)
    simp only [parseNamed]
    rw [show f1.lookup (key, spec).1 = f2.lookup (key, spec).1 from hh]
    rw [ih (fun a ha => h a (List.mem_cons_of_mem _ ha))]

theorem lookup_append_of_none {β : Type} (l1 l2 : List (String × β)) (k : String)
    (h : l1.lookup k = none) : (l1 ++ l2).lookup k = l2.lookup k := by
  induction l1 with
  | nil => rfl
  | cons hd tl ih =>
    obtain ⟨k0, v0⟩ := hd
    simp only [List.lookup, List.cons_append] at h ⊢
    cases hbeq : (k == k0) with
    | true => rw [hbeq] at h; simp at h
    | false => rw [hbeq] at h; exact ih h

/-!
The claims.
-/

/-- C6: for every registry state, registering a descriptor whose name is
already present returns `false` and leaves the registry unchanged (the
original descriptor stays reachable via lookup); registering a fresh name
inserts the descriptor and returns `true` (and it becomes reachable). -/
theorem c6_registerCommand (reg : List (String × Command)) (c d : Command) :
    (reg.lookup c.cmd = some d →
      registerCommand reg c = (reg, false)
      ∧ ((registerCommand reg c).1).lookup c.cmd = some d)
    ∧ (reg.lookup c.cmd = none →
      (registerCommand reg c).2 = true
      ∧ ((registerCommand reg c).1).lookup c.cmd = some c) := by
  constructor
  · intro h
    have hs : (reg.lookup c.cmd).isSome = true := by rw [h]; rfl
    refine ⟨by simp [registerCommand, hs], ?_⟩
    simp [registerCommand, hs, h]
  · intro h
    have hs : (reg.lookup c.cmd).isSome = false := by rw [h]; rfl
    constructor
    · simp [registerCommand, hs]
    · simp only [registerCommand, hs, Bool.false_eq_true, if_neg, ite_false]
      rw [lookup_append_of_none reg _ _ h]
      simp [List.lookup]

/-- C6 witness: with `c2Cmd` (named `cmd`) already registered, a second
registration returns `false` without mutation and the original stays
reachable; registering into an empty registry returns `true` and the
descriptor becomes reachable. -/
theorem c6_witness :
    (registerCommand [("cmd", c2Cmd)] c2Cmd = ([("cmd", c2Cmd)], false)
      ∧ ((registerCommand [("cmd", c2Cmd)] c2Cmd).1).lookup "cmd" = some c2Cmd)
    ∧ ((registerCommand [] c2Cmd).2 = true
      ∧ ((registerCommand [] c2Cmd).1).lookup "cmd" = some c2Cmd) := by
  constructor
  · exact (c6_registerCommand [("cmd", c2Cmd)] c2Cmd c2Cmd).1 (by rfl)
  · exact (c6_registerCommand [] c2Cmd c2Cmd).2 (by rfl)

/-- C7: every JSON-RPC body that is a JSON array, whatever its contents,
is answered by the INVALID_REQUEST error (−32600) with message
`Batch requests not supported` and id `null`; no command is resolved or
executed (the response is this fixed error for every registry). -/
theorem c7_batch_rejected (commands : List (String × Command)) (items : List JsonValue) :
    handleJsonRpcRequest commands (.arr items)
      = .error ⟨-32600, "Batch requests not supported", none⟩ (some .null) := rfl

/-- C9 (amended): every line whose first token is not `help` and does not
resolve in the registry is answered with the literal text
`Error: Unknown command, please type 'help' to get a list of all commands!`
(the claimed text preceded by the adapter's `Error: ` prefix), and no
command is executed. -/
theorem c9_unknown_command (commands : List (String × Command)) (line : String)
    (t : String) (ts : List String)
    (htok : tokenizeLine line = t :: ts)
    (hhelp : t ≠ "help")
    (hlookup : commands.lookup t = none) :
    parseLine commands line
      = some (.direct "Error: Unknown command, please type 'help' to get a list of all commands!") := by
  have hne : (line == "") = false := by
    cases hl : (line == "") with
    | false => rfl
    | true =>
      have : line = "" := by simpa using hl
      rw [this] at htok
      exact absurd htok (by simp [tokenizeLine, tokenizeCore, tokenizeCoreFuel])
  have hbeq : (t == "help") = false := beq_eq_false_iff_ne.mpr hhelp
  unfold parseLine
  rw [if_neg (by simp [hne]), htok]
  dsimp only
  rw [if_neg (by simp [hbeq]), hlookup]

/-- C9 witness: the unknown command `foo` on an empty registry. -/
theorem c9_witness :
    parseLine [] "foo 1 2"
      = some (.direct "Error: Unknown command, please type 'help' to get a list of all commands!") :=
  c9_unknown_command [] "foo 1 2" "foo" ["1", "2"] (by rfl) (by decide) (by rfl)

/-- C9 counterexample: the response to an unknown command is not the bare
literal the claim quotes — it is that text preceded by `Error: `. -/
theorem c9_counterexample :
    parseLine [] "foo 1 2"
      ≠ some (.direct "Unknown command, please type 'help' to get a list of all commands!")
    ∧ parseLine [] "foo 1 2"
      = some (.direct ("Error: " ++ "Unknown command, please type 'help' to get a list of all commands!")) := by
  refine ⟨?_, rfl⟩
  intro hcontra
  rw [show parseLine [] "foo 1 2"
      = some (CliResult.direct "Error: Unknown command, please type 'help' to get a list of all commands!")
    from rfl] at hcontra
  have hs : ("Error: Unknown command, please type 'help' to get a list of all commands!" : String)
      = "Unknown command, please type 'help' to get a list of all commands!" := by
    simpa using hcontra
  exact absurd hs (by decide)

/-- C4 (amended): an invalid-envelope body (that is not an array) is
answered by INVALID_REQUEST whose id echoes `body.id` whenever the body is
truthy and carries an `id` property of any type — well-typed or not — and
is `null` only when the id is absent or the body falsy
(`invalidEchoId` is exactly `(body && body.id !== undefined) ? body.id : null`). -/
theorem c4_invalid_request_id (commands : List (String × Command)) (body : JsonValue)
    (hnarr : ∀ items, body ≠ .arr items)
    (hinvalid : isValidJsonRpcRequest body = false) :
    handleJsonRpcRequest commands body
      = .error ⟨-32600, "Invalid Request", none⟩ (some (invalidEchoId body)) := by
  cases body with
  | arr items => exact absurd rfl (hnarr items)
  | null => simp [handleJsonRpcRequest, hinvalid]
  | bool b => simp [handleJsonRpcRequest, hinvalid]
  | num q => simp [handleJsonRpcRequest, hinvalid]
  | str s => simp [handleJsonRpcRequest, hinvalid]
  | obj fields => simp [handleJsonRpcRequest, hinvalid]

/-- C4 counterexample: an invalid envelope whose `id` is the ill-typed
boolean `true`; the claim requires the echoed id to be replaced by `null`,
but the response echoes `true`. -/
theorem c4_counterexample :
    handleJsonRpcRequest [] (.obj [("jsonrpc", .str "2.0"), ("method", .str "m"), ("id", .bool true)])
      = .error ⟨-32600, "Invalid Request", none⟩ (some (.bool true)) := rfl

/-- C4 witness: a body missing the envelope fields but carrying a numeric
id has that id echoed on the invalid-request response. -/
theorem c4_witness :
    handleJsonRpcRequest [] (.obj [("id", .num 3)])
      = .error ⟨-32600, "Invalid Request", none⟩ (some (.num 3)) :=
  c4_invalid_request_id [] (.obj [("id", .num 3)])
    (fun items h => JsonValue.noConfusion h) (by rfl)

/-- C8: a numeric parser with both bounds fails on text the requested
representation's conversion cannot parse (`NaN`), fails on a parsed value
below `min` or above `max` (bounds inclusive), and succeeds returning the
parsed value inside the bounds. -/
theorem c8_number_parser_bounds (decimal : Bool) (mn mx : ℚ) (opt : Bool) (s : String) :
    (jsParseNumber decimal s = none →
      cmdNumberParser decimal (some mn) (some mx) opt (some s) = .error "Number is NaN or null")
    ∧ ∀ v, jsParseNumber decimal s = some v →
        (v < mn → cmdNumberParser decimal (some mn) (some mx) opt (some s)
            = .error ("Number must be greater than " ++ jsNumToString mn))
        ∧ (mn ≤ v → mx < v → cmdNumberParser decimal (some mn) (some mx) opt (some s)
            = .error ("Number must be less than " ++ jsNumToString mx))
        ∧ (mn ≤ v → v ≤ mx → cmdNumberParser decimal (some mn) (some mx) opt (some s)
            = .ok (some v)) := by
  constructor
  · intro h
    simp [cmdNumberParser, h]
  · intro v hv
    refine ⟨?_, ?_, ?_⟩
    · intro hlt
      have hbm : belowMin (some mn) v = true := by simpa [belowMin] using hlt
      simp [cmdNumberParser, hv, hbm]
    · intro hge hgt
      have hbm : belowMin (some mn) v = false := by simpa [belowMin] using hge
      have ham : aboveMax (some mx) v = true := by simpa [aboveMax] using hgt
      simp [cmdNumberParser, hv, hbm, ham]
    · intro hge hle
      have hbm : belowMin (some mn) v = false := by simpa [belowMin] using hge
      have ham : aboveMax (some mx) v = false := by simpa [aboveMax] using hle
      simp [cmdNumberParser, hv, hbm, ham]

/-- C8 witness: with bounds `[0, 100]` and the integer representation,
input `150` fails the upper bound, `100` succeeds returning `100`, and
`-1` fails the lower bound. -/
theorem c8_witness :
    cmdNumberParser false (some 0) (some 100) false (some "150") = .error "Number must be less than 100"
    ∧ cmdNumberParser false (some 0) (some 100) false (some "100") = .ok (some 100)
    ∧ cmdNumberParser false (some 0) (some 100) false (some "-1") = .error "Number must be greater than 0" := by
  refine ⟨?_, ?_, ?_⟩
  · exact ((c8_number_parser_bounds false 0 100 false "150").2 150 (by decide)).2.1 (by norm_num) (by norm_num)
  · exact ((c8_number_parser_bounds false 0 100 false "100").2 100 (by decide)).2.2 (by norm_num) (by norm_num)
  · exact ((c8_number_parser_bounds false 0 100 false "-1").2 (-1) (by decide)).1 (by norm_num)

/-- C1 (amended): for an array parameter source, materialization parses
exactly the first `min(k, N)` positional parameters with the supplied
values in declaration order and every non-positional parameter with the
absent value (the parse sequence `arraySeq`); positional parameters beyond
the supplied values are omitted from the resulting argument map entirely —
their parsers are never invoked — so on success the map's keys are the
assigned positional keys followed by all non-positional keys, and lookup
of an unassigned positional parameter yields nothing. -/
theorem c1_array_materialization (c : Command) (ps : List JsonValue)
    (hnd : (c.runtime.args.map Prod.fst).Nodup) :
    parseCommandParams c (some (.arr ps)) = seqParse (arraySeq c.runtime.args ps)
    ∧ ∀ m, parseCommandParams c (some (.arr ps)) = .ok m →
        (m.map Prod.fst
          = ((c.runtime.args.filter (fun a => a.2.base)).map Prod.fst).take ps.length
            ++ (c.runtime.args.filter (fun a => !a.2.base)).map Prod.fst)
        ∧ ∀ key, key ∈ ((c.runtime.args.filter (fun a => a.2.base)).map Prod.fst).drop ps.length →
            m.lookup key = none := by
  have heq : parseCommandParams c (some (.arr ps)) = seqParse (arraySeq c.runtime.args ps) := by
    rw [parseCommandParams_arr]
    exact parseArray_eq_seqParse c.runtime.args ps hnd
  refine ⟨heq, ?_⟩
  intro m hm
  rw [heq] at hm
  have hkeys := seqParse_ok_keys _ _ hm
  have hkeys2 : m.map Prod.fst
      = ((c.runtime.args.filter (fun a => a.2.base)).map Prod.fst).take ps.length
        ++ (c.runtime.args.filter (fun a => !a.2.base)).map Prod.fst := by
    rw [hkeys]
    simp only [arraySeq, List.map_append, List.map_map]
    congr 1
    exact zip_map_fst_take _ ps
  refine ⟨hkeys2, ?_⟩
  intro key hkey
  apply lookup_eq_none_of_not_mem
  rw [hkeys2]
  have hbnd : ((c.runtime.args.filter (fun a => a.2.base)).map Prod.fst).Nodup := by
    refine List.Nodup.sublist ?_ hnd
    exact List.Sublist.map Prod.fst (List.filter_sublist _)
  intro hcontra
  rcases List.mem_append.mp hcontra with htake | hnonbase
  · have hsplit := List.take_append_drop ps.length ((c.runtime.args.filter (fun a => a.2.base)).map Prod.fst)
    rw [← hsplit] at hbnd
    have hdisj := (List.nodup_append.mp hbnd).2.2
    exact hdisj htake hkey
  · rcases List.mem_map.mp hnonbase with ⟨a, ha, hfst⟩
    have hmem : a ∈ c.runtime.args := List.mem_of_mem_filter ha
    have hbase : a.2.base = false := by
      have := List.of_mem_filter ha
      simpa using this
    have hnb := not_mem_base_keys c.runtime.args hnd a.1 a.2 (by rw [Prod.mk.eta]; exact hmem) hbase
    rw [hfst] at hnb
    exact hnb (List.drop_subset _ _ hkey)

/-- C1 counterexample: a command with two positional parameters whose
parsers never fail, given one supplied value: materialization succeeds
with an argument map containing only `a` — no entry for the declared
parameter `b`, contradicting the claim that every declared parameter
receives an entry from its parser run on the absent value. -/
theorem c1_counterexample :
    parseCommandParams c1Cmd (some (.arr [.str "v"])) = .ok [("a", .str "v")]
    ∧ ([("a", JsonValue.str "v")] : List (String × JsonValue)).lookup "b" = none
    ∧ laxParser none = .ok .null := ⟨rfl, rfl, rfl⟩

/-- C1 witness: the amended characterization evaluated on the
counterexample command: the success keys are exactly `a` (the one assigned
positional slot) and the unassigned positional parameter `b` is absent. -/
theorem c1_witness :
    ([("a", JsonValue.str "v")] : List (String × JsonValue)).map Prod.fst
      = ((c1Cmd.runtime.args.filter (fun a => a.2.base)).map Prod.fst).take 1
        ++ (c1Cmd.runtime.args.filter (fun a => !a.2.base)).map Prod.fst
    ∧ ([("a", JsonValue.str "v")] : List (String × JsonValue)).lookup "b" = none := by
  have h := (c1_array_materialization c1Cmd [.str "v"] (by decide)).2
    [("a", JsonValue.str "v")] (by rfl)
  exact ⟨h.1, h.2 "b" (by decide)⟩

/-- C5 (amended): materialization aborts at the first parser failure of a
deterministic parse sequence and reports that parameter; the sequence
follows descriptor declaration order for the Empty and named-object
shapes, while for the positional-array shape the assigned positional
parameters (in declaration order) are parsed before all non-positional
parameters (in declaration order) and unassigned positional parameters
are never parsed at all. -/
theorem c5_first_failure_order (c : Command)
    (hnd : (c.runtime.args.map Prod.fst).Nodup) :
    (∀ e, parseCommandParams c none = .error e ↔ firstFailMsg (emptySeq c.runtime.args) = some e)
    ∧ (∀ fields e, parseCommandParams c (some (.obj fields)) = .error e
        ↔ firstFailMsg (namedSeq c.runtime.args fields) = some e)
    ∧ (∀ ps e, parseCommandParams c (some (.arr ps)) = .error e
        ↔ firstFailMsg (arraySeq c.runtime.args ps) = some e) := by
  refine ⟨?_, ?_, ?_⟩
  · intro e
    rw [parseCommandParams_none, parseAllAbsent_eq_seqParse, seqParse_error_iff]
  · intro fields e
    rw [parseCommandParams_obj, parseNamed_eq_seqParse, seqParse_error_iff]
  · intro ps e
    rw [parseCommandParams_arr, parseArray_eq_seqParse _ _ hnd, seqParse_error_iff]

/-- C5 counterexample: the first-declared parameter `x` (non-positional,
required, hence failing on the array source that never feeds it) is not
the parameter reported; the later-declared positional parameter `y`,
parsed first by the array branch, is. -/
theorem c5_counterexample :
    parseCommandParams c5Cmd (some (.arr [.str "5"])) = .error (paramErrMsg "y" "bad value")
    ∧ c5Cmd.runtime.args.map Prod.fst = ["x", "y"]
    ∧ reqParser none = .error "Data is null" := ⟨rfl, rfl, rfl⟩

/-- C5 witness: the amended order evaluated on the counterexample command:
the error surfaced for the array source is exactly the first failure of
the array parse sequence. -/
theorem c5_witness :
    parseCommandParams c5Cmd (some (.arr [.str "5"])) = .error (paramErrMsg "y" "bad value")
    ↔ firstFailMsg (arraySeq c5Cmd.runtime.args [.str "5"]) = some (paramErrMsg "y" "bad value") :=
  (c5_first_failure_order c5Cmd (by decide)).2.2 [.str "5"] (paramErrMsg "y" "bad value")

/-- C10: for a named (object) parameter source, keys that match no
declared parameter are silently ignored — prepending such a binding
changes nothing — and on success every declared parameter was parsed from
the value under its own name, the resulting map's keys being exactly the
declared names. -/
theorem c10_named_extra_keys (c : Command) (fields : List (String × JsonValue))
    (hnd : (c.runtime.args.map Prod.fst).Nodup) :
    (∀ k v, k ∉ c.runtime.args.map Prod.fst →
        parseCommandParams c (some (.obj ((k, v) :: fields))) = parseCommandParams c (some (.obj fields)))
    ∧ ∀ m, parseCommandParams c (some (.obj fields)) = .ok m →
        m.map Prod.fst = c.runtime.args.map Prod.fst
        ∧ ∀ key spec, (key, spec) ∈ c.runtime.args →
            m.lookup key = (spec.parser (fields.lookup key)).toOption := by
  constructor
  · intro k v hk
    rw [parseCommandParams_obj, parseCommandParams_obj]
    apply parseNamed_congr
    intro a ha
    have hne : a.1 ≠ k := by
      intro hcontra
      exact hk (hcontra ▸ List.mem_map_of_mem Prod.fst ha)
    have hbeq : (a.1 == k) = false := beq_eq_false_iff_ne.mpr hne
    simp [List.lookup, hbeq]
  · intro m hm
    rw [parseCommandParams_obj, parseNamed_eq_seqParse] at hm
    have hkeys := seqParse_ok_keys _ _ hm
    have hkeys2 : m.map Prod.fst = c.runtime.args.map Prod.fst := by
      rw [hkeys]; simp [namedSeq, List.map_map]
    refine ⟨hkeys2, ?_⟩
    intro key spec hmem
    refine seqParse_ok_lookup _ _ ?_ hm key spec (fields.lookup key) ?_
    · simpa [namedSeq, List.map_map] using hnd
    · have : (fun a : String × ArgSpec => (a.1, a.2, fields.lookup a.1)) (key, spec)
          = (key, spec, fields.lookup key) := rfl
      rw [← this]
      exact List.mem_map_of_mem _ hmem

/-- C10 witness: the declared parameter `a` is parsed from its key while
the undeclared key `zzz` is ignored: prepending it leaves materialization
unchanged, and the result's keys are exactly the declared names. -/
theorem c10_witness :
    parseCommandParams c10Cmd (some (.obj [("zzz", .num 5), ("a", .str "1")]))
      = parseCommandParams c10Cmd (some (.obj [("a", .str "1")]))
    ∧ ([("a", JsonValue.str "1")] : List (String × JsonValue)).map Prod.fst
      = c10Cmd.runtime.args.map Prod.fst := by
  constructor
  · exact (c10_named_extra_keys c10Cmd [("a", .str "1")] (by decide)).1 "zzz" (.num 5) (by decide)
  · exact ((c10_named_extra_keys c10Cmd [("a", .str "1")] (by decide)).2
      [("a", JsonValue.str "1")] (by rfl)).1

/-- C2 (amended): flagged tokens bind their named parameter with priority;
unflagged tokens are consumed by slot position, the positional parameter
with `i` positional slots declared before it reading the unflagged token
at index `i + 1` of `result._` only when no flag bound it — a token
aligned with a flag-bound slot is discarded, not shifted to the next
unbound slot.  (The claim's concrete example `add "5" --b=10` does hold;
see the witness.) -/
theorem c2_line_materialization (specs : List (String × ArgSpec)) (r : MinimistResult) :
    ∀ (idx : Nat) (m : List (String × JsonValue)),
      (specs.map Prod.fst).Nodup → parseLineLoop r specs idx = .ok m →
      m.map Prod.fst = specs.map Prod.fst
      ∧ ∀ key spec, (key, spec) ∈ specs →
          m.lookup key
            = (spec.parser (cliEffectiveRaw r (idx + countBaseBefore specs key) key spec)).toOption := by
  induction specs with
  | nil =>
    intro idx m hnd h
    obtain rfl : ([] : List (String × JsonValue)) = m := by simpa [parseLineLoop] using h
    exact ⟨rfl, by intro key spec hmem; simp at hmem⟩
  | cons hd tl ih =>
    intro idx m hnd h
    obtain ⟨k0, s0⟩ := hd
    simp only [List.map_cons, List.nodup_cons] at hnd
    simp only [parseLineLoop] at h
    cases hp : s0.parser (cliEffectiveRaw r idx k0 s0) with
    | error msg => rw [hp] at h; exact absurd h (by simp)
    | ok v =>
      rw [hp] at h
      cases h1 : parseLineLoop r tl (if s0.base then idx + 1 else idx) with
      | error e1 => rw [h1] at h; exact absurd h (by simp)
      | ok t1 =>
        rw [h1] at h
        obtain rfl : (k0, v) :: t1 = m := by simpa using h
        obtain ⟨hkeys, hlook⟩ := ih (if s0.base then idx + 1 else idx) t1 hnd.2 h1
        constructor
        · simpa using hkeys
        · intro key spec hmem
          rcases List.mem_cons.mp hmem with heq | htl
          · obtain ⟨rfl, rfl⟩ : k0 = key ∧ s0 = spec := by
              simpa [Prod.ext_iff] using heq.symm
            have hcb : countBaseBefore ((k0, s0) :: tl) k0 = 0 := by
              simp [countBaseBefore]
            rw [hcb]
            simp [List.lookup, hp, Except.toOption]
          · have hne : key ≠ k0 := by
              rintro rfl
              exact hnd.1 (by simpa using List.mem_map_of_mem Prod.fst htl)
            have hbeq : (key == k0) = false := beq_eq_false_iff_ne.mpr hne
            have hbeq0 : (k0 == key) = false := beq_eq_false_iff_ne.mpr (Ne.symm hne)
            have hcb : countBaseBefore ((k0, s0) :: tl) key
                = (if s0.base then 1 else 0) + countBaseBefore tl key := by
              simp [countBaseBefore, hbeq0]
            have hslot : idx + countBaseBefore ((k0, s0) :: tl) key
                = (if s0.base then idx + 1 else idx) + countBaseBefore tl key := by
              rw [hcb]; cases s0.base <;> simp <;> omega
            rw [hslot]
            simpa [List.lookup, hbeq] using hlook key spec htl

/-- C2 counterexample: against a command with two required positional
parameters `a`, `b`, the line `cmd X --a=1` leaves the unflagged token `X`
aligned with the flag-bound slot of `a` and discards it, so `b` is parsed
from the absent value and materialization fails — while the claim's
fill-and-skip reading would have `X` fill `b`'s slot (whose parser accepts
it, as the last conjunct shows). -/
theorem c2_counterexample :
    parseLine [("cmd", c2Cmd)] "cmd X --a=1"
      = some (.direct ("Error: Parsing parameter 'b': Data is null\n\n" ++ getCommandHelp c2Cmd))
    ∧ reqParser (some (.str "X")) = .ok (.str "X") := ⟨rfl, rfl⟩

/-- C2 witness: the amended slot rule evaluated on the claim's example
`add "5" --b=10` (positional `a`, named `b`): the flag binds `b`, the
unflagged token fills `a`, and the typed arguments are
`{a: parsed("5"), b: parsed("10")}`. -/
theorem c2_witness :
    ([("a", JsonValue.str "5"), ("b", JsonValue.str "10")] : List (String × JsonValue)).map Prod.fst
      = addCmd.runtime.args.map Prod.fst
    ∧ parseLine [("add", addCmd)] "add \"5\" --b=10"
      = some (.exec "add" [("a", .str "5"), ("b", .str "10")]) := by
  constructor
  · exact (c2_line_materialization addCmd.runtime.args
      (jsMinimist (tokenizeLine "add \"5\" --b=10") ("_" :: addCmd.runtime.args.map Prod.fst)) 1
      [("a", JsonValue.str "5"), ("b", JsonValue.str "10")] (by decide) (by rfl)).1
  · rfl

/-- C3 (amended): the JSON-RPC handler classifies failures by whether the
failure message contains the substring `Parsing parameter`.  Every
Argument Materializer failure carries that substring and is answered by
INVALID_PARAMS (−32602) with the message in `data`; an execution failure
is answered by SERVER_ERROR (−32000) with the message in `data` unless its
own message happens to contain the substring, in which case it too is
answered by INVALID_PARAMS — the two cases are distinguished only by this
textual test. -/
theorem c3_failure_classification (commands : List (String × Command)) (body : JsonValue) (c : Command)
    (hvalid : isValidJsonRpcRequest body = true)
    (hcmd : commands.lookup (rpcMethod body) = some c) :
    (∀ e, parseCommandParams c (jsGetField body "params") = .error e →
        strIncludes e "Parsing parameter" = true
        ∧ handleJsonRpcRequest commands body
            = .error ⟨-32602, "Invalid params", some (.str e)⟩ (jsGetField body "id"))
    ∧ (∀ m e, parseCommandParams c (jsGetField body "params") = .ok m →
        c.runtime.parser m = .error e →
        handleJsonRpcRequest commands body
          = if strIncludes e "Parsing parameter" = true
            then .error ⟨-32602, "Invalid params", some (.str e)⟩ (jsGetField body "id")
            else .error ⟨-32000, "Server error", some (.str e)⟩ (jsGetField body "id")) := by
  cases body with
  | null => simp [isValidJsonRpcRequest, jsTruthy] at hvalid
  | bool b => simp [isValidJsonRpcRequest, jsTruthy, jsGetField] at hvalid
  | num q => simp [isValidJsonRpcRequest, jsTruthy, jsGetField] at hvalid
  | str s => simp [isValidJsonRpcRequest, jsTruthy, jsGetField] at hvalid
  | arr items => simp [isValidJsonRpcRequest, jsTruthy, jsGetField] at hvalid
  | obj fields =>
    have hparams : jsGetField (.obj fields) "params" = none
        ∨ (∃ ps, jsGetField (.obj fields) "params" = some (.arr ps))
        ∨ (∃ fs, jsGetField (.obj fields) "params" = some (.obj fs)) := by
      have hv := hvalid
      simp only [isValidJsonRpcRequest, Bool.and_eq_true] at hv
      obtain ⟨⟨⟨⟨⟨-, -⟩, -⟩, -⟩, hpar⟩, -⟩ := hv
      cases hgf : jsGetField (.obj fields) "params" with
      | none => exact Or.inl rfl
      | some v =>
        cases v with
        | arr ps => exact Or.inr (Or.inl ⟨ps, rfl⟩)
        | obj fs => exact Or.inr (Or.inr ⟨fs, rfl⟩)
        | null => rw [hgf] at hpar; simp at hpar
        | bool b => rw [hgf] at hpar; simp at hpar
        | num q => rw [hgf] at hpar; simp at hpar
        | str s => rw [hgf] at hpar; simp at hpar
    have hstep : handleJsonRpcRequest commands (.obj fields)
        = match parseCommandParams c (jsGetField (.obj fields) "params") with
          | .error e => classifyRpcFailure e (jsGetField (.obj fields) "id")
          | .ok parsedArgs =>
            match c.runtime.parser parsedArgs with
            | .error e => classifyRpcFailure e (jsGetField (.obj fields) "id")
            | .ok result => .success result (jsGetField (.obj fields) "id") := by
      simp only [handleJsonRpcRequest]
      rw [if_neg (by simp [hvalid]), hcmd]
    constructor
    · intro e hparse
      obtain ⟨k, msg, rfl⟩ := parseCommandParams_error_shape c _ e hparams hparse
      have hsub := strIncludes_paramErrMsg k msg
      refine ⟨hsub, ?_⟩
      rw [hstep, hparse]
      simp [classifyRpcFailure, hsub]
    · intro m e hok hfail
      rw [hstep, hok]
      dsimp only
      rw [hfail]
      rfl

/-- C3 counterexample: a command whose execution (not its parameter
parsing — materialization succeeds, as the second conjunct shows) fails
with a message containing `Parsing parameter`: the response carries code
−32602 instead of the claimed −32000. -/
theorem c3_counterexample :
    handleJsonRpcRequest [("boom", spoofCmd)] (.obj [("jsonrpc", .str "2.0"), ("method", .str "boom")])
      = .error ⟨-32602, "Invalid params", some (.str "Parsing parameter spoof")⟩ none
    ∧ parseCommandParams spoofCmd none = .ok [] := ⟨rfl, rfl⟩

/-- C3 witness: an ordinary execution failure (`boom`) is classified as
SERVER_ERROR (−32000) with the message in `data` and the id echoed. -/
theorem c3_witness :
    handleJsonRpcRequest [("f", failCmd)] (.obj [("jsonrpc", .str "2.0"), ("method", .str "f"), ("id", .num 7)])
      = .error ⟨-32000, "Server error", some (.str "boom")⟩ (some (.num 7)) := by
  have h := (c3_failure_classification [("f", failCmd)]
      (.obj [("jsonrpc", .str "2.0"), ("method", .str "f"), ("id", .num 7)]) failCmd
      (by rfl) (by rfl)).2 [] "boom" (by rfl) (by rfl)
  exact h.trans (if_neg (by decide))

end ServerBase
